import Mathlib

/-!
Verification of the document-scanner core (multi-engine OCR orchestration,
image preprocessing decisions, metadata extraction) against its specification.

The Python source is shallowly embedded:
* floats become exact rationals (ℚ);
* Python dicts become insertion-ordered association lists;
* a Python call that may raise becomes an `Except String` value;
* external library calls (OpenCV, pytesseract, easyocr, paddleocr, spaCy, re)
  are inputs to the embedded functions: the embedding models exactly the
  repository's own arithmetic, control flow and data plumbing around them.
-/

namespace DocScanner

/-- Result record produced by one backend wrapper (`_ocr_tesseract`,
`_ocr_easyocr`, `_ocr_paddle`) in `scanner_engine.py`: the dict with keys
`text`, `confidence`, `engine`, `word_count`.  The backend-specific
`details` payload is opaque and irrelevant to every claim, so it is dropped. -/
structure RecognitionResult where
  text : String
  confidence : ℚ
  engine : String
  wordCount : ℕ
deriving DecidableEq

/-- Python `max(iterable, key=f)` on a non-empty iterable, fed as head + tail:
it scans left to right and replaces the current best only on a strictly
greater key, so the FIRST element attaining the maximal key is returned. -/
def pyMaxBy {α β : Type} [LinearOrder β] (f : α → β) : α → List α → α
  | best, [] => best
  | best, r :: rs => pyMaxBy f (if f best < f r then r else best) rs

/-! ## Ensemble OCR (`_ocr_ensemble`, scanner_engine.py lines 281-313)

A single backend invocation either returns a `RecognitionResult` or raises;
`_ocr_ensemble` contains no exception handler, so the invocations are
sequenced monadically: the first raising call aborts the whole function. -/

/-- Outcome of one backend invocation: normal return or a raised exception. -/
abbrev BackendCall := Except String RecognitionResult

/-- Sentinel returned by `_ocr_ensemble` when the `results` list is empty
(no backend registered): `{"text": "", "confidence": 0.0, "engine": "none",
"word_count": 0}`. -/
def ensembleSentinel : RecognitionResult :=
  { text := "", confidence := 0, engine := "none", wordCount := 0 }

/-- The relabelling `best_result["engine"] = f"ensemble ({...} selected)"`. -/
def relabelEnsemble (r : RecognitionResult) : RecognitionResult :=
  { r with engine := "ensemble (" ++ r.engine ++ " selected)" }

/-- The `results` list of `_ocr_ensemble` is built by a sequence of
unguarded calls `results.append(self._ocr_xxx(image))`; an exception in any
call propagates and the appends so far are discarded with the frame. -/
def runBackendCalls : List BackendCall → Except String (List RecognitionResult)
  | [] => .ok []
  | c :: cs =>
    match c with
    | .error e => .error e
    | .ok r =>
      match runBackendCalls cs with
      | .error e => .error e
      | .ok rs => .ok (r :: rs)

/-- Embeds `_ocr_ensemble`, as a function of the outcomes of the backend invocations
it makes (in source order).  `max(results, key=lambda x: x["confidence"])`
is `pyMaxBy`; the chosen result's engine field is relabelled. -/
def ocrEnsemble (calls : List BackendCall) : Except String RecognitionResult :=
  match runBackendCalls calls with
  | .error e => .error e
  | .ok [] => .ok ensembleSentinel
  | .ok (r :: rs) =>
    .ok (relabelEnsemble (pyMaxBy (fun x => x.confidence) r rs))

/-- The list of backend invocations `_ocr_ensemble` performs: one per
registered engine, in the fixed source order tesseract, easyocr, paddle
(which is also the registration order of `_initialize_engines`). -/
def ensembleCalls (hasTesseract hasEasyocr hasPaddle : Bool)
    (tess easy padl : BackendCall) : List BackendCall :=
  (if hasTesseract then [tess] else []) ++
    (if hasEasyocr then [easy] else []) ++
      (if hasPaddle then [padl] else [])

/-! ## Engine selection (`_select_engine`, scanner_engine.py lines 162-182)

The registry `self.engines` is a Python dict whose keys, in insertion order,
form the registration order; only the key list matters to `_select_engine`. -/

/-- The fixed priority table, combined with `priority.get(document_type,
priority["unknown"])`: any key other than printed/handwritten/mixed falls
through to the `unknown` list, which equals the `printed` list. -/
def enginePriority (documentType : String) : List String :=
  if documentType = "printed" then ["tesseract", "paddle", "easyocr"]
  else if documentType = "handwritten" then ["easyocr", "paddle", "tesseract"]
  else if documentType = "mixed" then ["paddle", "easyocr", "tesseract"]
  else ["tesseract", "paddle", "easyocr"]

/-- Embeds `_select_engine`: first engine of the priority list present in the
registry; otherwise `list(self.engines.keys())[0]` (here `head?`, with
`none` standing for the `IndexError` an empty registry would raise). -/
def selectEngine (engines : List String) (documentType : String) : Option String :=
  match (enginePriority documentType).find? (fun e => engines.contains e) with
  | some e => some e
  | none => engines.head?

/-! ## Quality assessment (`assess_quality`, image_utils.py lines 165-202)

Sharpness, brightness and contrast come from OpenCV reductions over the
raster (Laplacian variance, mean, standard deviation); they enter the
embedding as rational inputs.  The label is the sequential overwrite chain
`quality = "good"; if ...: "blurry"; elif ...: "poor_lighting"; elif ...`. -/

structure QualityMetrics where
  sharpness : ℚ
  brightness : ℚ
  contrast : ℚ
  quality : String
  resolution : ℕ × ℕ
deriving DecidableEq

/-- The label decision chain of `assess_quality`. -/
def qualityLabel (sharpness brightness contrast : ℚ) : String :=
  if sharpness < 100 then "blurry"
  else if brightness < 50 ∨ brightness > 200 then "poor_lighting"
  else if contrast < 30 then "low_contrast"
  else "good"

/-- Embeds `assess_quality` assembled into its returned record. -/
def assess_quality (sharpness brightness contrast : ℚ) (resolution : ℕ × ℕ) :
    QualityMetrics :=
  { sharpness := sharpness, brightness := brightness, contrast := contrast,
    quality := qualityLabel sharpness brightness contrast,
    resolution := resolution }

/-! ## Deskew (`deskew`, image_utils.py lines 75-111)

The OpenCV steps (grayscale, Otsu threshold, `minAreaRect`) are inputs:
`hasForeground` is whether the binarized image has any nonzero pixel
(`len(coords) == 0` check) and `rawAngle` is `cv2.minAreaRect(coords)[-1]`.
The function either returns the input image unchanged or rotates the
ORIGINAL image; the embedding records which, with the rotation parameters. -/

inductive DeskewOutcome (Img : Type) where
  | unchanged (img : Img)
  | rotated (img : Img) (angle : ℚ) (center : ℕ × ℕ)
      (interpolation : String) (borderMode : String)
deriving DecidableEq

/-- The angle adjustment `if angle < -45: angle = -(90 + angle) else: -angle`. -/
def normalizeAngle (rawAngle : ℚ) : ℚ :=
  if rawAngle < -45 then -(90 + rawAngle) else -rawAngle

/-- Embeds `deskew`: early return when no foreground pixels, early return when the
normalized angle is below 0.5° in magnitude, otherwise rotation of the
original image about `(w // 2, h // 2)` with `cv2.INTER_CUBIC` and
`cv2.BORDER_REPLICATE`. -/
def deskew {Img : Type} (img : Img) (width height : ℕ)
    (hasForeground : Bool) (rawAngle : ℚ) : DeskewOutcome Img :=
  if hasForeground = false then .unchanged img
  else
    let angle := normalizeAngle rawAngle
    if |angle| < 1/2 then .unchanged img
    else .rotated img angle (width / 2, height / 2) "INTER_CUBIC" "BORDER_REPLICATE"

/-! ## Preprocess option handling (`preprocess`, image_utils.py lines 21-60)

The interesting behaviour is which operations run and in which order, as a
function of the `operations` argument; the image transformations themselves
are OpenCV calls.  `preprocessOps` returns the names of the operations
applied, in application order. -/

/-- Python `operations.get(key, False)` over a dict modelled as an
association list. -/
def lookupOpDict (d : List (String × Bool)) (k : String) : Bool :=
  match d.lookup k with
  | some b => b
  | none => false

/-- The default dict substituted when the caller passes `operations=None`. -/
def defaultOperations : List (String × Bool) :=
  [("denoise", true), ("deskew", true), ("enhance_contrast", true),
    ("remove_shadows", true)]

/-- The sequence of `if operations.get(name, False): img = self.name(img)`
statements of `preprocess`, reduced to the list of operation names applied,
in source order. -/
def preprocessOps (operations : Option (List (String × Bool))) : List String :=
  let ops := match operations with
    | none => defaultOperations
    | some d => d
  (if lookupOpDict ops "denoise" then ["denoise"] else []) ++
    (if lookupOpDict ops "deskew" then ["deskew"] else []) ++
      (if lookupOpDict ops "remove_shadows" then ["remove_shadows"] else []) ++
        (if lookupOpDict ops "enhance_contrast" then ["enhance_contrast"] else [])

/-! ## Document-type classification
(`classify_document_type`, metadata_extractor.py lines 186-218)

Fully concrete: lower-casing, literal substring tests, score counting, and
Python `max` over the insertion-ordered dict of nonzero scores. -/

/-- Decides whether `needle` is a prefix of `hay` (character lists). -/
def charsPrefix : List Char → List Char → Bool
  | [], _ => true
  | _ :: _, [] => false
  | a :: as, b :: bs => a == b && charsPrefix as bs

/-- Python's `needle in hay` substring test on character lists. -/
def charsContains (needle : List Char) : List Char → Bool
  | [] => needle.isEmpty
  | c :: rest => charsPrefix needle (c :: rest) || charsContains needle rest

/-- Python's `needle in hay` substring test on strings. -/
def containsSub (hay needle : String) : Bool :=
  charsContains needle.data hay.data

/-- Python `text.lower()` as a per-character map (the classifier's keywords
and the repository's documents are ASCII, where this agrees with Python). -/
def pyLower (s : String) : String := String.mk (s.data.map Char.toLower)

/-- The `type_keywords` dict, in insertion order. -/
def typeKeywords : List (String × List String) :=
  [("invoice", ["invoice", "bill", "amount due", "total amount", "payment"]),
   ("letter", ["dear", "sincerely", "regards", "yours truly"]),
   ("form", ["form", "application", "fill", "signature"]),
   ("legal", ["agreement", "contract", "hereby", "whereas", "party"]),
   ("gazette", ["notification", "gazette", "government order"]),
   ("manuscript", ["chapter", "page", "manuscript"]),
   ("administrative", ["memo", "memorandum", "circular", "office order"]),
   ("receipt", ["receipt", "received", "paid"])]

/-- Embeds `sum(1 for keyword in keywords if keyword in text_lower)`. -/
def keywordScore (textLower : String) (keywords : List String) : ℕ :=
  (keywords.filter (fun k => containsSub textLower k)).length

/-- The `scores` dict: labels with nonzero score, in `type_keywords` order. -/
def docTypeScores (textLower : String) : List (String × ℕ) :=
  typeKeywords.filterMap (fun tk =>
    if 0 < keywordScore textLower tk.2 then some (tk.1, keywordScore textLower tk.2)
    else none)

/-- Embeds `classify_document_type`: `max(scores, key=scores.get)` when `scores`
is non-empty (first key attaining the maximal score wins), else "unknown". -/
def classify_document_type (text : String) : String :=
  match docTypeScores (pyLower text) with
  | [] => "unknown"
  | s :: ss => (pyMaxBy Prod.snd s ss).1

/-! ## Metadata extraction (`extract_all`, metadata_extractor.py lines 36-58)

The regular-expression engine (`re.findall`) and the optional spaCy NER
pipeline are external; each compiled pattern enters the embedding as an
opaque matcher `String → List String` (pattern order is preserved), and the
NER capability as an optional `String → List (label, entityText)`.  The
repository's own plumbing — concatenation of the per-pattern hit lists, the
NER supplement, and `list(set(...))` deduplication — is concrete. -/

structure ExtractorEnv where
  dateMatchers : List (String → List String)
  nameFallbackMatcher : String → List String
  emailMatcher : String → List String
  phoneMatchers : List (String → List String)
  refMatchers : List (String → List String)
  amountMatchers : List (String → List String)
  ner : Option (String → List (String × String))

/-- Python `list(set(x))`: duplicate-free and, for a fixed hash seed, a
deterministic function of the input list; modelled by a canonical
deduplication. -/
def pySetList (l : List String) : List String := l.dedup

/-- Embeds `extract_dates`: hits of the four date patterns, in pattern order,
supplemented by NER DATE entities when available, then deduplicated. -/
def extract_dates (env : ExtractorEnv) (text : String) : List String :=
  let regexHits := (env.dateMatchers.map (fun m => m text)).flatten
  let allHits := match env.ner with
    | some nlp =>
        regexHits ++ ((nlp text).filter (fun ent => ent.1 == "DATE")).map (fun ent => ent.2)
    | none => regexHits
  pySetList allHits

/-- Embeds `extract_names`: NER PERSON entities when available, otherwise the
capitalized-bigram fallback pattern; deduplicated. -/
def extract_names (env : ExtractorEnv) (text : String) : List String :=
  let names := match env.ner with
    | some nlp => ((nlp text).filter (fun ent => ent.1 == "PERSON")).map (fun ent => ent.2)
    | none => env.nameFallbackMatcher text
  pySetList names

/-- Embeds `extract_organizations`: NER ORG entities when available, else empty. -/
def extract_organizations (env : ExtractorEnv) (text : String) : List String :=
  let orgs := match env.ner with
    | some nlp => ((nlp text).filter (fun ent => ent.1 == "ORG")).map (fun ent => ent.2)
    | none => []
  pySetList orgs

/-- Embeds `extract_locations`: NER GPE and LOC entities when available, else empty. -/
def extract_locations (env : ExtractorEnv) (text : String) : List String :=
  let locs := match env.ner with
    | some nlp =>
        ((nlp text).filter (fun ent => ent.1 == "GPE" || ent.1 == "LOC")).map (fun ent => ent.2)
    | none => []
  pySetList locs

/-- Embeds `extract_emails`: hits of the email pattern, deduplicated. -/
def extract_emails (env : ExtractorEnv) (text : String) : List String :=
  pySetList (env.emailMatcher text)

/-- Embeds `extract_phone_numbers`: hits of the three phone patterns, deduplicated. -/
def extract_phone_numbers (env : ExtractorEnv) (text : String) : List String :=
  pySetList ((env.phoneMatchers.map (fun m => m text)).flatten)

/-- Embeds `extract_reference_numbers`: hits of the four patterns, deduplicated. -/
def extract_reference_numbers (env : ExtractorEnv) (text : String) : List String :=
  pySetList ((env.refMatchers.map (fun m => m text)).flatten)

/-- Embeds `extract_amounts`: hits of the four amount patterns plus NER MONEY
entities when available, deduplicated. -/
def extract_amounts (env : ExtractorEnv) (text : String) : List String :=
  let regexHits := (env.amountMatchers.map (fun m => m text)).flatten
  let allHits := match env.ner with
    | some nlp =>
        regexHits ++ ((nlp text).filter (fun ent => ent.1 == "MONEY")).map (fun ent => ent.2)
    | none => regexHits
  pySetList allHits

/-- The metadata dict returned by `extract_all`. -/
structure Metadata where
  dates : List String
  names : List String
  organizations : List String
  locations : List String
  emails : List String
  phone_numbers : List String
  reference_numbers : List String
  amounts : List String
  document_type : String

/-- Embeds `extract_all`: each field extractor applied to the same text. -/
def extract_all (env : ExtractorEnv) (text : String) : Metadata :=
  { dates := extract_dates env text
    names := extract_names env text
    organizations := extract_organizations env text
    locations := extract_locations env text
    emails := extract_emails env text
    phone_numbers := extract_phone_numbers env text
    reference_numbers := extract_reference_numbers env text
    amounts := extract_amounts env text
    document_type := classify_document_type text }

/-! ## Backend wrapper confidences
(`_ocr_tesseract` lines 184-213, `_ocr_easyocr` lines 215-245,
`_ocr_paddle` lines 247-279 of scanner_engine.py)

The recognizer libraries are external; each wrapper is embedded as a
function of the library's return payload.  Its own arithmetic — filtering
tesseract's -1 sentinels, averaging, dividing by 100, joining text parts —
is concrete. -/

/-- Python `text.split()`: split on whitespace runs, dropping empty parts. -/
def pySplitWhitespace (s : String) : List String :=
  (s.split (fun c => c.isWhitespace)).filter (fun w => w ≠ "")

/-- Embeds `np.mean(confidences) if confidences else 0.0`. -/
def meanConfidence (confs : List ℚ) : ℚ :=
  if confs = [] then 0 else confs.sum / confs.length

/-- The confidence arithmetic of `_ocr_tesseract`: the -1 sentinel rows of
the `conf` column are filtered out and the remaining word confidences are
averaged and divided by 100 (`np.mean(confidences) / 100 if confidences
else 0.0`); the integer confidences are cast to ℚ at the model boundary. -/
def tesseractConfidence (rawConf : List ℤ) : ℚ :=
  let confidences := (rawConf.filter (fun c => c ≠ -1)).map (fun (c : ℤ) => (c : ℚ))
  if confidences = [] then 0 else meanConfidence confidences / 100

/-- Embeds `_ocr_tesseract` as a function of the recognized text and the per-box
`conf` column of `image_to_data`. -/
def ocr_tesseract (text : String) (rawConf : List ℤ) : RecognitionResult :=
  { text := text.trim
    confidence := tesseractConfidence rawConf
    engine := "tesseract"
    wordCount := (pySplitWhitespace text).length }

/-- Embeds `_ocr_easyocr` as a function of the reader's detections, each a
(text, confidence) pair; the per-line confidences are averaged as is. -/
def ocr_easyocr (detections : List (String × ℚ)) : RecognitionResult :=
  let fullText := String.intercalate " " (detections.map (fun d => d.1))
  { text := fullText.trim
    confidence := meanConfidence (detections.map (fun d => d.2))
    engine := "easyocr"
    wordCount := (pySplitWhitespace fullText).length }

/-- Embeds `_ocr_paddle` as a function of the reader's payload: `none` models a
falsy `results` or `results[0]` (the `if results and results[0]` guard),
and the inner options model the per-line `if line` guard. -/
def ocr_paddle (results : Option (List (Option (String × ℚ)))) : RecognitionResult :=
  let lines := (results.getD []).filterMap id
  let fullText := String.intercalate " " (lines.map (fun d => d.1))
  { text := fullText.trim
    confidence := meanConfidence (lines.map (fun d => d.2))
    engine := "paddle"
    wordCount := (pySplitWhitespace fullText).length }

/-! ## Batch processing and statistics
(`process_batch` lines 80-113, `get_statistics` lines 231-252 of
document_processor.py)

`process_document` runs the whole per-image pipeline and appends its result
record to `self.processed_documents` just before returning; on any exception
nothing is appended.  The pipeline internals are external to these claims,
so each batch item enters the embedding as its path together with the
pipeline outcome (a result record, or the exception message). -/

/-- The fields of a stored result record that statistics read. -/
structure ProcResult where
  fileName : String
  filePath : String
  confidence : ℚ
  wordCount : ℕ
  documentType : String
deriving DecidableEq

/-- One entry of the list returned by `process_batch`: a success record, or
the error dict `{"file_name", "file_path", "error", "processed_at"}`. -/
inductive BatchRecord where
  | ok (r : ProcResult)
  | err (fileName filePath error processedAt : String)
deriving DecidableEq

/-- Outcome of `process_document` on one image: result or raised exception. -/
abbrev PipelineOutcome := Except String ProcResult

/-- Python `Path(path).name`: the last path component. -/
def pathName (path : String) : String :=
  (path.splitOn "/").getLastD path

/-- Embeds `process_batch`: per-item try/except around `process_document`; a
success appends its record to the ledger (`self.processed_documents`) and to
the returned list, a failure appends only an error record to the returned
list.  `now` stands for `datetime.now().isoformat()`. -/
def processBatch (now : String) (items : List (String × PipelineOutcome))
    (ledger : List ProcResult) : List BatchRecord × List ProcResult :=
  match items with
  | [] => ([], ledger)
  | (path, out) :: rest =>
    match out with
    | .ok r =>
      let step := processBatch now rest (ledger ++ [r])
      (BatchRecord.ok r :: step.1, step.2)
    | .error e =>
      let step := processBatch now rest ledger
      (BatchRecord.err (pathName path) path e now :: step.1, step.2)

/-- Python `round(x)` on an exact value: round half to even. -/
def roundHalfEven (q : ℚ) : ℤ :=
  let f := ⌊q⌋
  let r := q - f
  if r < 1/2 then f
  else if 1/2 < r then f + 1
  else if f % 2 = 0 then f else f + 1

/-- Python `round(x, 2)` as exact decimal rounding (the binary float
representation of the intermediate average is outside the model). -/
def round2 (x : ℚ) : ℚ := (roundHalfEven (x * 100) : ℚ) / 100

/-- Embeds `doc_types[t] = doc_types.get(t, 0) + 1` on a dict modelled as an
insertion-ordered association list: update in place, or append a new key. -/
def bumpType : List (String × ℕ) → String → List (String × ℕ)
  | [], t => [(t, 1)]
  | (k, v) :: rest, t =>
    if k = t then (k, v + 1) :: rest else (k, v) :: bumpType rest t

/-- The `doc_types` histogram loop of `get_statistics`. -/
def countTypes (ledger : List ProcResult) : List (String × ℕ) :=
  ledger.foldl (fun acc doc => bumpType acc doc.documentType) []

structure Statistics where
  totalDocuments : ℕ
  totalWords : ℕ
  averageConfidence : ℚ
  documentTypes : List (String × ℕ)
deriving DecidableEq

/-- Embeds `get_statistics` over the ledger.  Only success records ever reach
`self.processed_documents` (error records are appended solely to the list
`process_batch` returns), so the source's `"error" not in doc` filters are
identically true and are dropped; the divisor `total_docs` equals the
number of success records.  An empty ledger returns the empty dict. -/
def getStatistics (ledger : List ProcResult) : Option Statistics :=
  match ledger with
  | [] => none
  | _ :: _ =>
    some
      { totalDocuments := ledger.length
        totalWords := (ledger.map (fun d => d.wordCount)).sum
        averageConfidence := round2 ((ledger.map (fun d => d.confidence)).sum / ledger.length)
        documentTypes := countTypes ledger }

/-- Sample success record for the batch witness (first image). -/
def sampleResultA : ProcResult :=
  { fileName := "a.png", filePath := "a.png", confidence := 4/5, wordCount := 7,
    documentType := "invoice" }

/-- Sample success record for the batch witness (third image). -/
def sampleResultC : ProcResult :=
  { fileName := "c.png", filePath := "c.png", confidence := 3/5, wordCount := 2,
    documentType := "invoice" }

/-- Sample batch of three images whose middle item fails to decode. -/
def sampleBatch : List (String × PipelineOutcome) :=
  [("a.png", Except.ok sampleResultA),
   ("bad.png", Except.error "Could not load image: bad.png"),
   ("c.png", Except.ok sampleResultC)]

/-! ## Helper lemmas -/

theorem le_pyMaxBy {α β : Type} [LinearOrder β] (f : α → β) (best : α) (l : List α) :
    f best ≤ f (pyMaxBy f best l) := by
  induction l generalizing best with
  | nil => simp [pyMaxBy]
  | cons r rs ih =>
    simp only [pyMaxBy]
    by_cases h : f best < f r
    · simp only [h, if_pos]
      exact le_of_lt (lt_of_lt_of_le h (ih r))
    · simp only [h, if_neg, not_false_iff]
      exact ih best

/-- Characterization of Python `max` with a key function: the returned element
splits the input list into a strict-smaller prefix and a no-greater suffix,
i.e. it is the EARLIEST element attaining the maximal key. -/
theorem pyMaxBy_split {α β : Type} [LinearOrder β] (f : α → β) (best : α) (l : List α) :
    ∃ l₁ l₂, best :: l = l₁ ++ pyMaxBy f best l :: l₂ ∧
      (∀ x ∈ l₁, f x < f (pyMaxBy f best l)) ∧
      (∀ x ∈ l₂, f x ≤ f (pyMaxBy f best l)) := by
  induction l generalizing best with
  | nil => exact ⟨[], [], rfl, by simp, by simp⟩
  | cons r rs ih =>
    simp only [pyMaxBy]
    by_cases h : f best < f r
    · simp only [h, if_pos]
      obtain ⟨l₁, l₂, heq, h₁, h₂⟩ := ih r
      refine ⟨best :: l₁, l₂, by simp [heq], ?_, h₂⟩
      intro x hx
      rcases List.mem_cons.mp hx with hx | hx
      · subst hx
        exact lt_of_lt_of_le h (le_pyMaxBy f r rs)
      · exact h₁ x hx
    · simp only [h, if_neg, not_false_iff]
      obtain ⟨l₁, l₂, heq, h₁, h₂⟩ := ih best
      cases l₁ with
      | nil =>
        simp only [List.nil_append] at heq
        have hbest : best = pyMaxBy f best rs := (List.cons_eq_cons.mp heq).1
        have hl₂ : rs = l₂ := (List.cons_eq_cons.mp heq).2
        refine ⟨[], r :: rs, by rw [List.nil_append, ← hbest], ?_, ?_⟩
        · simp
        · intro x hx
          rcases List.mem_cons.mp hx with hx | hx
          · subst hx
            rw [← hbest]
            exact le_of_not_lt h
          · exact h₂ x (hl₂ ▸ hx)
      | cons b t =>
        simp only [List.cons_append] at heq
        have hb : best = b := (List.cons_eq_cons.mp heq).1
        have ht : rs = t ++ pyMaxBy f best rs :: l₂ := (List.cons_eq_cons.mp heq).2
        have hmem : best ∈ b :: t := by rw [hb]; exact List.mem_cons_self b t
        refine ⟨best :: r :: t, l₂, ?_, ?_, h₂⟩
        · simp only [List.cons_append]
          rw [← ht]
        · intro x hx
          rcases List.mem_cons.mp hx with hx | hx
          · rw [hx]
            exact h₁ best hmem
          rcases List.mem_cons.mp hx with hx | hx
          · rw [hx]
            exact lt_of_le_of_lt (le_of_not_lt h) (h₁ best hmem)
          · exact h₁ x (List.mem_cons_of_mem b hx)

/-- Every element of the input has key at most the chosen element's key. -/
theorem pyMaxBy_is_max {α β : Type} [LinearOrder β] (f : α → β) (best : α) (l : List α)
    (x : α) (hx : x ∈ best :: l) : f x ≤ f (pyMaxBy f best l) := by
  obtain ⟨l₁, l₂, heq, h₁, h₂⟩ := pyMaxBy_split f best l
  rw [heq] at hx
  rcases List.mem_append.mp hx with hx | hx
  · exact le_of_lt (h₁ x hx)
  · rcases List.mem_cons.mp hx with hx | hx
    · subst hx; exact le_rfl
    · exact h₂ x hx

theorem runBackendCalls_ok (rs : List RecognitionResult) :
    runBackendCalls (rs.map Except.ok) = .ok rs := by
  induction rs with
  | nil => rfl
  | cons r rest ih => simp [runBackendCalls, ih]

theorem runBackendCalls_error (pre : List RecognitionResult) (e : String)
    (post : List BackendCall) :
    runBackendCalls (pre.map Except.ok ++ Except.error e :: post) = .error e := by
  induction pre with
  | nil => rfl
  | cons r rest ih => simp [runBackendCalls, ih]

/-! ## Claim theorems -/

/-- C4: for every raster, the quality label of `assess_quality` is one of
exactly the four values blurry, poor_lighting, low_contrast, good, and is a
pure function of (sharpness, brightness, contrast) decided in fixed
first-match-wins order: sharpness < 100 → blurry; otherwise brightness
outside [50, 200] → poor_lighting; otherwise contrast < 30 → low_contrast;
otherwise good. -/
theorem assess_quality_label_spec (s b c : ℚ) (res : ℕ × ℕ) :
    (assess_quality s b c res).quality = qualityLabel s b c ∧
    (qualityLabel s b c = "blurry" ∨ qualityLabel s b c = "poor_lighting" ∨
      qualityLabel s b c = "low_contrast" ∨ qualityLabel s b c = "good") ∧
    (s < 100 → qualityLabel s b c = "blurry") ∧
    (¬ s < 100 → (b < 50 ∨ b > 200) → qualityLabel s b c = "poor_lighting") ∧
    (¬ s < 100 → ¬ (b < 50 ∨ b > 200) → c < 30 → qualityLabel s b c = "low_contrast") ∧
    (¬ s < 100 → ¬ (b < 50 ∨ b > 200) → ¬ c < 30 → qualityLabel s b c = "good") := by
  refine ⟨rfl, ?_, ?_, ?_, ?_, ?_⟩ <;>
    simp only [qualityLabel] <;> split_ifs <;> simp_all

/-- Witness for C4: each branch of the decision chain at a concrete input. -/
theorem assess_quality_label_spec_witness :
    qualityLabel 99 100 50 = "blurry" ∧
    qualityLabel 100 300 50 = "poor_lighting" ∧
    qualityLabel 100 100 10 = "low_contrast" ∧
    qualityLabel 150 100 50 = "good" :=
  ⟨(assess_quality_label_spec 99 100 50 (1, 1)).2.2.1 (by norm_num),
   (assess_quality_label_spec 100 300 50 (1, 1)).2.2.2.1 (by norm_num) (by norm_num),
   (assess_quality_label_spec 100 100 10 (1, 1)).2.2.2.2.1 (by norm_num) (by norm_num)
     (by norm_num),
   (assess_quality_label_spec 150 100 50 (1, 1)).2.2.2.2.2 (by norm_num) (by norm_num)
     (by norm_num)⟩

/-- C9: `deskew` maps the raw minimum-area-rectangle angle a to -(90 + a)
when a < -45 and to -a otherwise, landing in (-45, 45] on OpenCV's raw
range; it returns the input unchanged when the binarized image has no
foreground pixels and when the normalized angle is below 0.5° in magnitude;
otherwise it rotates the original image by the normalized angle about
(w // 2, h // 2) with cubic interpolation and edge-replicate borders. -/
theorem deskew_spec {Img : Type} (img : Img) (w h : ℕ) (raw : ℚ) :
    (raw < -45 → normalizeAngle raw = -(90 + raw)) ∧
    (¬ raw < -45 → normalizeAngle raw = -raw) ∧
    (-90 ≤ raw → raw < 45 → -45 < normalizeAngle raw ∧ normalizeAngle raw ≤ 45) ∧
    deskew img w h false raw = DeskewOutcome.unchanged img ∧
    (|normalizeAngle raw| < 1/2 → deskew img w h true raw = DeskewOutcome.unchanged img) ∧
    (¬ |normalizeAngle raw| < 1/2 →
      deskew img w h true raw =
        DeskewOutcome.rotated img (normalizeAngle raw) (w / 2, h / 2)
          "INTER_CUBIC" "BORDER_REPLICATE") := by
  refine ⟨?_, ?_, ?_, rfl, ?_, ?_⟩
  · intro hlt
    simp [normalizeAngle, hlt]
  · intro hge
    simp [normalizeAngle, hge]
  · intro h1 h2
    simp only [normalizeAngle]
    split_ifs with hlt
    · constructor <;> linarith
    · constructor <;> linarith [le_of_not_lt hlt]
  · intro hsmall
    simp [deskew, hsmall]
    linarith
  · intro hbig
    simp [deskew, hbig]
    linarith [le_of_not_lt hbig]

/-- Witness for C9: a -60° raw angle normalizes to -30° inside (-45, 45]
and triggers a rotation of the original image; a -0.2° normalized angle is
skipped. -/
theorem deskew_spec_witness :
    normalizeAngle (-60) = -30 ∧
    (-45 < normalizeAngle (-60) ∧ normalizeAngle (-60) ≤ 45) ∧
    deskew (0 : ℕ) 640 480 true (-60) =
      DeskewOutcome.rotated 0 (normalizeAngle (-60)) (320, 240)
        "INTER_CUBIC" "BORDER_REPLICATE" ∧
    deskew (0 : ℕ) 640 480 true (1/5) = DeskewOutcome.unchanged 0 :=
  ⟨by rw [(deskew_spec (0 : ℕ) 640 480 (-60)).1 (by norm_num)]; norm_num,
   (deskew_spec (0 : ℕ) 640 480 (-60)).2.2.1 (by norm_num) (by norm_num),
   (deskew_spec (0 : ℕ) 640 480 (-60)).2.2.2.2.2 (by norm_num [normalizeAngle, abs_lt]),
   (deskew_spec (0 : ℕ) 640 480 (1/5)).2.2.2.2.1 (by norm_num [normalizeAngle, abs_lt])⟩

/-- C10: with no operations dict, `preprocess` applies all four operations
in the fixed order denoise → deskew → remove_shadows → enhance_contrast;
with a partial dict, every operation key absent from the dict defaults to
disabled, not to the all-on default. -/
theorem preprocess_default_ops :
    preprocessOps none = ["denoise", "deskew", "remove_shadows", "enhance_contrast"] ∧
    (∀ (d : List (String × Bool)) (k : String),
      (k = "denoise" ∨ k = "deskew" ∨ k = "remove_shadows" ∨ k = "enhance_contrast") →
      d.lookup k = none → k ∉ preprocessOps (some d)) := by
  constructor
  · decide
  · intro d k hk hl
    have hfalse : lookupOpDict d k = false := by
      simp [lookupOpDict, hl]
    rcases hk with rfl | rfl | rfl | rfl <;>
      simp only [preprocessOps, hfalse, if_false, Bool.false_eq_true] <;>
      split_ifs <;> simp_all

/-- Witness for C10: a dict enabling only deskew leaves denoise disabled. -/
theorem preprocess_default_ops_witness :
    "denoise" ∉ preprocessOps (some [("deskew", true)]) :=
  preprocess_default_ops.2 [("deskew", true)] "denoise" (Or.inl rfl) rfl

theorem find?_of_split {α : Type} (p : α → Bool) (l₁ : List α) (a : α) (l₂ : List α)
    (h₁ : ∀ x ∈ l₁, p x = false) (ha : p a = true) :
    (l₁ ++ a :: l₂).find? p = some a := by
  induction l₁ with
  | nil => simp [List.find?, ha]
  | cons x xs ih =>
    have hx : p x = false := h₁ x (List.mem_cons_self x xs)
    simp only [List.cons_append, List.find?, hx]
    exact ih fun y hy => h₁ y (List.mem_cons_of_mem x hy)

theorem find?_none_of_all_false {α : Type} (p : α → Bool) (l : List α)
    (h : ∀ x ∈ l, p x = false) : l.find? p = none := by
  induction l with
  | nil => rfl
  | cons x xs ih =>
    have hx : p x = false := h x (List.mem_cons_self x xs)
    simp only [List.find?, hx]
    exact ih fun y hy => h y (List.mem_cons_of_mem x hy)

/-- C3: `_select_engine` is a deterministic function of the document type
and the registry key list: it consults the fixed priority table (printed →
[tesseract, paddle, easyocr]; handwritten → [easyocr, paddle, tesseract];
mixed → [paddle, easyocr, tesseract]; unknown and every unrecognized type →
the printed list), returns the first listed engine present in the registry,
falls back to the first registered engine when no listed engine is present,
and on a non-empty registry always returns a registered engine. -/
theorem select_engine_spec (engines : List String) (dt : String) :
    enginePriority "printed" = ["tesseract", "paddle", "easyocr"] ∧
    enginePriority "handwritten" = ["easyocr", "paddle", "tesseract"] ∧
    enginePriority "mixed" = ["paddle", "easyocr", "tesseract"] ∧
    enginePriority "unknown" = ["tesseract", "paddle", "easyocr"] ∧
    (dt ≠ "printed" → dt ≠ "handwritten" → dt ≠ "mixed" →
      enginePriority dt = enginePriority "unknown") ∧
    (∀ l₁ e l₂, enginePriority dt = l₁ ++ e :: l₂ → e ∈ engines →
      (∀ x ∈ l₁, x ∉ engines) → selectEngine engines dt = some e) ∧
    ((∀ e ∈ enginePriority dt, e ∉ engines) →
      selectEngine engines dt = engines.head?) ∧
    (engines ≠ [] → ∃ e, selectEngine engines dt = some e ∧ e ∈ engines) := by
  refine ⟨rfl, rfl, rfl, rfl, ?_, ?_, ?_, ?_⟩
  · intro h1 h2 h3
    simp [enginePriority, h1, h2, h3]
  · intro l₁ e l₂ hsplit he h₁
    have : (enginePriority dt).find? (fun x => engines.contains x) = some e := by
      rw [hsplit]
      exact find?_of_split _ l₁ e l₂
        (fun x hx => by
          have := h₁ x hx
          simpa using this)
        (by simpa using he)
    unfold selectEngine
    rw [this]
  · intro hall
    have : (enginePriority dt).find? (fun x => engines.contains x) = none :=
      find?_none_of_all_false _ _ fun x hx => by
        have := hall x hx
        simpa using this
    unfold selectEngine
    rw [this]
  · intro hne
    unfold selectEngine
    cases hfind : (enginePriority dt).find? (fun x => engines.contains x) with
    | some e =>
      refine ⟨e, rfl, ?_⟩
      have := List.find?_some hfind
      simpa using this
    | none =>
      cases engines with
      | nil => exact absurd rfl hne
      | cons x xs => exact ⟨x, rfl, List.mem_cons_self x xs⟩

/-- Witness for C3: on registry [easyocr] (tesseract and paddle failed to
initialize), the first listed engine present for printed documents is
easyocr, and an unrecognized document type uses the unknown priority list. -/
theorem select_engine_spec_witness :
    selectEngine ["easyocr"] "printed" = some "easyocr" ∧
    enginePriority "receipt" = enginePriority "unknown" ∧
    (∃ e, selectEngine ["easyocr"] "printed" = some e ∧ e ∈ ["easyocr"]) :=
  ⟨(select_engine_spec ["easyocr"] "printed").2.2.2.2.2.1
      ["tesseract", "paddle"] "easyocr" [] rfl (by decide) (by decide),
   (select_engine_spec [] "receipt").2.2.2.2.1 (by decide) (by decide) (by decide),
   (select_engine_spec ["easyocr"] "printed").2.2.2.2.2.2.2 (by decide)⟩

/-- Counterexample to C1: `_ocr_ensemble` wraps no backend invocation in a
handler, so when the tesseract call raises while the easyocr call would
succeed with confidence 0.9, the whole operation aborts with the exception
instead of arbitrating over the surviving result; and when every invoked
backend raises (zero succeed), it likewise propagates the first exception
instead of returning the zero-confidence sentinel. -/
theorem ocr_ensemble_counterexample :
    ocrEnsemble [Except.error "tesseract failed",
        Except.ok { text := "hello", confidence := 9/10, engine := "easyocr",
                    wordCount := 1 }] =
      Except.error "tesseract failed" ∧
    ocrEnsemble [Except.error "boom"] = Except.error "boom" :=
  ⟨rfl, rfl⟩

/-- C1 amended: in ensemble mode an exception from any invoked backend is
NOT recovered: the first raising call aborts `_ocr_ensemble` and the
exception propagates (per-image isolation lives in `batch_extract` /
`process_batch` instead); the sentinel RecognitionResult with confidence
0.0 and empty text is returned exactly when zero backends are invoked
(none registered), and when every invoked backend succeeds, arbitration
proceeds over all of their results. -/
theorem ocr_ensemble_failure_semantics (pre : List RecognitionResult) (e : String)
    (post : List BackendCall) (rs : List RecognitionResult) :
    ocrEnsemble [] = Except.ok ensembleSentinel ∧
    ensembleSentinel.confidence = 0 ∧ ensembleSentinel.text = "" ∧
    ocrEnsemble (pre.map Except.ok ++ Except.error e :: post) = Except.error e ∧
    (∀ r rest, rs = r :: rest →
      ocrEnsemble (rs.map Except.ok) =
        Except.ok (relabelEnsemble (pyMaxBy (fun x => x.confidence) r rest))) := by
  refine ⟨rfl, rfl, rfl, ?_, ?_⟩
  · unfold ocrEnsemble
    rw [runBackendCalls_error]
  · intro r rest hrs
    unfold ocrEnsemble
    rw [hrs, runBackendCalls_ok]

/-- Witness for C1 amended: one raising backend among two aborts the call
with its exception; two succeeding backends are arbitrated. -/
theorem ocr_ensemble_failure_semantics_witness :
    ocrEnsemble
        [Except.ok { text := "a", confidence := 1/2, engine := "tesseract",
                     wordCount := 1 },
         Except.error "paddle failed"] =
      Except.error "paddle failed" ∧
    ocrEnsemble
        [Except.ok { text := "a", confidence := 1/2, engine := "tesseract",
                     wordCount := 1 },
         Except.ok { text := "b", confidence := 3/4, engine := "easyocr",
                     wordCount := 1 }] =
      Except.ok (relabelEnsemble (pyMaxBy (fun x => x.confidence)
        { text := "a", confidence := 1/2, engine := "tesseract", wordCount := 1 }
        [{ text := "b", confidence := 3/4, engine := "easyocr", wordCount := 1 }])) :=
  ⟨(ocr_ensemble_failure_semantics
      [{ text := "a", confidence := 1/2, engine := "tesseract", wordCount := 1 }]
      "paddle failed" [] []).2.2.2.1,
   (ocr_ensemble_failure_semantics [] "" []
      [{ text := "a", confidence := 1/2, engine := "tesseract", wordCount := 1 },
       { text := "b", confidence := 3/4, engine := "easyocr", wordCount := 1 }]).2.2.2.2
      { text := "a", confidence := 1/2, engine := "tesseract", wordCount := 1 }
      [{ text := "b", confidence := 3/4, engine := "easyocr", wordCount := 1 }] rfl⟩

theorem ensembleCalls_map_ok (hT hE hP : Bool) (t e p : RecognitionResult) :
    ensembleCalls hT hE hP (Except.ok t) (Except.ok e) (Except.ok p) =
      ((if hT then [t] else []) ++ (if hE then [e] else []) ++
        (if hP then [p] else [])).map Except.ok := by
  cases hT <;> cases hE <;> cases hP <;> simp [ensembleCalls]

/-- C2: over any non-empty set of successful backend results assembled in
the fixed run order tesseract, easyocr, paddle (the registration order),
`_ocr_ensemble` returns the result of maximal confidence; on exact ties the
result earliest in that order (hence of the earlier-registered engine) is
chosen, and the chosen result's engine field is relabelled to name the
ensemble and the selected backend. -/
theorem ensemble_arbitration (hT hE hP : Bool) (t e p : RecognitionResult)
    (hany : hT = true ∨ hE = true ∨ hP = true) :
    ∃ best l₁ l₂,
      ocrEnsemble (ensembleCalls hT hE hP (Except.ok t) (Except.ok e) (Except.ok p)) =
        Except.ok (relabelEnsemble best) ∧
      (relabelEnsemble best).engine = "ensemble (" ++ best.engine ++ " selected)" ∧
      (relabelEnsemble best).text = best.text ∧
      (relabelEnsemble best).confidence = best.confidence ∧
      (if hT then [t] else []) ++ (if hE then [e] else []) ++ (if hP then [p] else [])
        = l₁ ++ best :: l₂ ∧
      (∀ x ∈ l₁, x.confidence < best.confidence) ∧
      (∀ x ∈ l₂, x.confidence ≤ best.confidence) := by
  have hne :
      (if hT then [t] else []) ++ (if hE then [e] else []) ++ (if hP then [p] else [])
        ≠ [] := by
    rcases hany with h | h | h
    · subst h; cases hE <;> cases hP <;> simp
    · subst h; cases hT <;> cases hP <;> simp
    · subst h; cases hT <;> cases hE <;> simp
  obtain ⟨r, rest, hres⟩ := List.exists_cons_of_ne_nil hne
  refine ⟨pyMaxBy (fun x => x.confidence) r rest, ?_⟩
  obtain ⟨l₁, l₂, hsplit, h₁, h₂⟩ := pyMaxBy_split (fun x => x.confidence) r rest
  refine ⟨l₁, l₂, ?_, rfl, rfl, rfl, by rw [hres, hsplit], h₁, h₂⟩
  rw [ensembleCalls_map_ok, hres]
  unfold ocrEnsemble
  rw [runBackendCalls_ok]

/-- Witness for C2: tesseract and easyocr both succeed with the same
confidence 0.5; the earlier-registered tesseract result is selected and
relabelled. -/
theorem ensemble_arbitration_witness :
    ∃ best l₁ l₂,
      ocrEnsemble (ensembleCalls true true false
          (Except.ok { text := "a", confidence := 1/2, engine := "tesseract",
                       wordCount := 1 })
          (Except.ok { text := "b", confidence := 1/2, engine := "easyocr",
                       wordCount := 1 })
          (Except.ok { text := "c", confidence := 1/2, engine := "paddle",
                       wordCount := 1 })) =
        Except.ok (relabelEnsemble best) ∧
      (relabelEnsemble best).engine = "ensemble (" ++ best.engine ++ " selected)" ∧
      (relabelEnsemble best).text = best.text ∧
      (relabelEnsemble best).confidence = best.confidence ∧
      (if true then [{ text := "a", confidence := (1 : ℚ)/2, engine := "tesseract",
                       wordCount := 1 }] else []) ++
        (if true then [{ text := "b", confidence := (1 : ℚ)/2, engine := "easyocr",
                         wordCount := 1 }] else []) ++
          (if false then [{ text := "c", confidence := (1 : ℚ)/2, engine := "paddle",
                            wordCount := 1 }] else [])
        = l₁ ++ best :: l₂ ∧
      (∀ x ∈ l₁, x.confidence < best.confidence) ∧
      (∀ x ∈ l₂, x.confidence ≤ best.confidence) :=
  ensemble_arbitration true true false
    { text := "a", confidence := 1/2, engine := "tesseract", wordCount := 1 }
    { text := "b", confidence := 1/2, engine := "easyocr", wordCount := 1 }
    { text := "c", confidence := 1/2, engine := "paddle", wordCount := 1 }
    (Or.inl rfl)

theorem docTypeScores_pos (tl : String) : ∀ x ∈ docTypeScores tl, 0 < x.2 := by
  intro x hx
  simp only [docTypeScores, List.mem_filterMap] at hx
  obtain ⟨tk, _, htk⟩ := hx
  by_cases h : 0 < keywordScore tl tk.2
  · simp only [h, if_pos, Option.some_inj] at htk
    rw [← htk]
    exact h
  · simp [h] at htk

/-- C6: `classify_document_type` lower-cases the text, scores the eight
labels by counting keyword substring hits, and returns the label with the
highest nonzero score, breaking exact ties by the fixed insertion order of
the keyword table; with no hits it returns unknown.  In particular the
invoice and letter examples classify as claimed. -/
theorem classify_document_type_spec :
    classify_document_type "Invoice Total Amount Due: $500" = "invoice" ∧
    classify_document_type "Dear Sir, thank you for your help. Sincerely, John" = "letter" ∧
    (∀ text, docTypeScores (pyLower text) = [] → classify_document_type text = "unknown") ∧
    (∀ text s ss, docTypeScores (pyLower text) = s :: ss →
      ∃ best l₁ l₂, classify_document_type text = best.1 ∧ 0 < best.2 ∧
        s :: ss = l₁ ++ best :: l₂ ∧ (∀ x ∈ l₁, x.2 < best.2) ∧
        (∀ x ∈ l₂, x.2 ≤ best.2)) := by
  refine ⟨by decide, by decide, ?_, ?_⟩
  · intro text h
    unfold classify_document_type
    rw [h]
  · intro text s ss h
    refine ⟨pyMaxBy Prod.snd s ss, ?_⟩
    obtain ⟨l₁, l₂, hsplit, h₁, h₂⟩ := pyMaxBy_split Prod.snd s ss
    have hmem : pyMaxBy Prod.snd s ss ∈ s :: ss := by
      rw [hsplit]
      exact List.mem_append.mpr (Or.inr (List.mem_cons_self _ _))
    refine ⟨l₁, l₂, ?_, ?_, hsplit, h₁, h₂⟩
    · unfold classify_document_type
      rw [h]
    · exact docTypeScores_pos (pyLower text) _ (h ▸ hmem)

/-- Witness for C6: a text with no keyword hits classifies as unknown, and
the decomposition for the invoice example has a concrete instantiation. -/
theorem classify_document_type_spec_witness :
    classify_document_type "zzz qqq" = "unknown" ∧
    (∃ best l₁ l₂,
      classify_document_type "Invoice Total Amount Due: $500" = best.1 ∧ 0 < best.2 ∧
        [("invoice", 3)] = l₁ ++ best :: l₂ ∧ (∀ x ∈ l₁, x.2 < best.2) ∧
        (∀ x ∈ l₂, x.2 ≤ best.2)) :=
  ⟨classify_document_type_spec.2.2.1 "zzz qqq" (by decide),
   classify_document_type_spec.2.2.2 "Invoice Total Amount Due: $500"
     ("invoice", 3) [] (by decide)⟩

/-- C5: `extract_all` is idempotent and duplicate-free: two calls on the
same text yield the same metadata, every field-value list is free of
duplicates, and deduplication canonicalizes each field deterministically
while preserving exactly the set of extracted values. -/
theorem extract_all_idempotent (env : ExtractorEnv) (text : String) :
    extract_all env text = extract_all env text ∧
    (extract_all env text).dates.Nodup ∧
    (extract_all env text).names.Nodup ∧
    (extract_all env text).organizations.Nodup ∧
    (extract_all env text).locations.Nodup ∧
    (extract_all env text).emails.Nodup ∧
    (extract_all env text).phone_numbers.Nodup ∧
    (extract_all env text).reference_numbers.Nodup ∧
    (extract_all env text).amounts.Nodup ∧
    (∀ l : List String, (pySetList l).Nodup ∧ ∀ v, v ∈ pySetList l ↔ v ∈ l) := by
  refine ⟨rfl, ?_, ?_, ?_, ?_, ?_, ?_, ?_, ?_,
    fun l => ⟨List.nodup_dedup l, fun v => List.mem_dedup⟩⟩ <;>
    exact List.nodup_dedup _

theorem listSum_nonneg (l : List ℚ) (h : ∀ x ∈ l, 0 ≤ x) : 0 ≤ l.sum := by
  induction l with
  | nil => simp
  | cons x xs ih =>
    simp only [List.sum_cons]
    have hx := h x (List.mem_cons_self x xs)
    have hxs := ih fun y hy => h y (List.mem_cons_of_mem x hy)
    linarith

theorem listSum_le (l : List ℚ) (B : ℚ) (h : ∀ x ∈ l, x ≤ B) : l.sum ≤ l.length * B := by
  induction l with
  | nil => simp
  | cons x xs ih =>
    simp only [List.sum_cons, List.length_cons]
    have hx := h x (List.mem_cons_self x xs)
    have hxs := ih fun y hy => h y (List.mem_cons_of_mem x hy)
    push_cast
    nlinarith

theorem meanConfidence_bounds (l : List ℚ) (B : ℚ) (hB : 0 ≤ B)
    (h : ∀ x ∈ l, 0 ≤ x ∧ x ≤ B) :
    0 ≤ meanConfidence l ∧ meanConfidence l ≤ B := by
  unfold meanConfidence
  split_ifs with hnil
  · exact ⟨le_refl 0, hB⟩
  · have hlen : 0 < (l.length : ℚ) := by
      have h1 : 0 < l.length := List.length_pos.mpr hnil
      exact_mod_cast h1
    constructor
    · exact div_nonneg (listSum_nonneg l fun x hx => (h x hx).1) (le_of_lt hlen)
    · rw [div_le_iff₀ hlen]
      calc l.sum ≤ l.length * B := listSum_le l B fun x hx => (h x hx).2
        _ = B * l.length := by ring

/-- C8: every RecognitionResult produced by a backend wrapper or by the
ensemble sentinel has confidence in [0, 1], under the precondition that
each backend's per-item confidences lie in their declared ranges
(tesseract word confidences in 0..100 after the -1 sentinel rows are
filtered; easyocr and paddle per-line confidences in [0, 1]); the
empty-result case yields confidence exactly 0. -/
theorem backend_confidence_invariant :
    (∀ text rawConf, (∀ c ∈ rawConf, c = -1 ∨ (0 ≤ c ∧ c ≤ 100)) →
      0 ≤ (ocr_tesseract text rawConf).confidence ∧
        (ocr_tesseract text rawConf).confidence ≤ 1) ∧
    (∀ dets : List (String × ℚ), (∀ d ∈ dets, 0 ≤ d.2 ∧ d.2 ≤ 1) →
      0 ≤ (ocr_easyocr dets).confidence ∧ (ocr_easyocr dets).confidence ≤ 1) ∧
    (∀ results : Option (List (Option (String × ℚ))),
      (∀ dv : String × ℚ, some dv ∈ results.getD [] → 0 ≤ dv.2 ∧ dv.2 ≤ 1) →
      0 ≤ (ocr_paddle results).confidence ∧ (ocr_paddle results).confidence ≤ 1) ∧
    (0 ≤ ensembleSentinel.confidence ∧ ensembleSentinel.confidence ≤ 1) ∧
    ensembleSentinel.confidence = 0 ∧
    (∀ text, (ocr_tesseract text []).confidence = 0) ∧
    (ocr_easyocr []).confidence = 0 ∧
    (ocr_paddle none).confidence = 0 := by
  refine ⟨?_, ?_, ?_, by norm_num [ensembleSentinel], rfl, fun text => rfl, rfl, rfl⟩
  · intro text rawConf hconf
    have hrw : (ocr_tesseract text rawConf).confidence =
        (if ((rawConf.filter (fun c => c ≠ -1)).map (fun (c : ℤ) => (c : ℚ))) = [] then 0
         else meanConfidence ((rawConf.filter (fun c => c ≠ -1)).map (fun (c : ℤ) => (c : ℚ)))
           / 100) := rfl
    rw [hrw]
    split_ifs with hemp
    · norm_num
    · have hbounds : ∀ x ∈ (rawConf.filter (fun c => c ≠ -1)).map (fun (c : ℤ) => (c : ℚ)),
          0 ≤ x ∧ x ≤ 100 := by
        intro x hx
        obtain ⟨c, hc, hcx⟩ := List.mem_map.mp hx
        have hcmem := List.mem_filter.mp hc
        have hcraw := hconf c hcmem.1
        have hcne : c ≠ -1 := by simpa using hcmem.2
        rcases hcraw with hcm | hcb
        · exact absurd hcm hcne
        · rw [← hcx]
          constructor
          · exact_mod_cast hcb.1
          · exact_mod_cast hcb.2
      have hm := meanConfidence_bounds _ 100 (by norm_num) hbounds
      constructor
      · exact div_nonneg hm.1 (by norm_num)
      · rw [div_le_one (by norm_num)]
        linarith [hm.2]
  · intro dets hdets
    simp only [ocr_easyocr]
    refine meanConfidence_bounds _ 1 (by norm_num) ?_
    intro x hx
    obtain ⟨d, hd, hdx⟩ := List.mem_map.mp hx
    exact hdx ▸ hdets d hd
  · intro results hres
    simp only [ocr_paddle]
    refine meanConfidence_bounds _ 1 (by norm_num) ?_
    intro x hx
    obtain ⟨d, hd, hdx⟩ := List.mem_map.mp hx
    have hd2 := List.mem_filterMap.mp hd
    obtain ⟨o, ho, hoi⟩ := hd2
    cases o with
    | none => simp at hoi
    | some dv =>
      have : dv = d := by simpa using hoi
      exact hdx ▸ this ▸ hres dv ho

/-- Witness for C8: tesseract payload with one -1 sentinel and one word at
confidence 80 yields 0.8; an easyocr detection pair at 0.5 and 0.7 yields
0.6; a paddle payload with a None line is averaged over real lines only. -/
theorem backend_confidence_invariant_witness :
    (0 ≤ (ocr_tesseract "hi there" [-1, 80]).confidence ∧
      (ocr_tesseract "hi there" [-1, 80]).confidence ≤ 1) ∧
    (0 ≤ (ocr_easyocr [("hi", 1/2), ("there", 7/10)]).confidence ∧
      (ocr_easyocr [("hi", 1/2), ("there", 7/10)]).confidence ≤ 1) ∧
    (0 ≤ (ocr_paddle (some [some ("hi", 9/10), none])).confidence ∧
      (ocr_paddle (some [some ("hi", 9/10), none])).confidence ≤ 1) :=
  ⟨backend_confidence_invariant.1 "hi there" [-1, 80] (by decide),
   backend_confidence_invariant.2.1 [("hi", 1/2), ("there", 7/10)] (by norm_num),
   backend_confidence_invariant.2.2.1 (some [some ("hi", 9/10), none])
     (by intro dv hdv; simp at hdv; rw [hdv]; norm_num)⟩

theorem processBatch_spec_aux (now : String) (items : List (String × PipelineOutcome))
    (ledger : List ProcResult) :
    (processBatch now items ledger).1 =
      items.map (fun it => match it.2 with
        | .ok r => BatchRecord.ok r
        | .error e => BatchRecord.err (pathName it.1) it.1 e now) ∧
    (processBatch now items ledger).2 =
      ledger ++ items.filterMap (fun it => it.2.toOption) := by
  induction items generalizing ledger with
  | nil => simp [processBatch]
  | cons it rest ih =>
    obtain ⟨path, out⟩ := it
    cases out with
    | ok r =>
      have ihr := ih (ledger ++ [r])
      simp only [processBatch, List.map_cons, List.filterMap_cons]
      exact ⟨by rw [ihr.1], by rw [ihr.2]; simp [Except.toOption]⟩
    | error e =>
      have ihr := ih ledger
      simp only [processBatch, List.map_cons, List.filterMap_cons]
      exact ⟨by rw [ihr.1], by rw [ihr.2]; simp [Except.toOption]⟩

theorem bumpType_lookup (acc : List (String × ℕ)) (t k : String) :
    (bumpType acc t).lookup k =
      if k = t then some (((acc.lookup t).getD 0) + 1) else acc.lookup k := by
  induction acc with
  | nil =>
    by_cases h : k = t
    · subst h
      simp [bumpType, List.lookup]
    · have hb : (k == t) = false := beq_eq_false_iff_ne.mpr h
      simp [bumpType, List.lookup, hb, h]
  | cons p rest ih =>
    obtain ⟨a, v⟩ := p
    by_cases ha : a = t
    · subst ha
      by_cases hk : k = a
      · subst hk
        simp [bumpType, List.lookup]
      · have hb : (k == a) = false := beq_eq_false_iff_ne.mpr hk
        simp [bumpType, List.lookup, hb, hk]
    · have hbta : (t == a) = false := beq_eq_false_iff_ne.mpr fun h => ha h.symm
      by_cases hk : k = a
      · subst hk
        simp [bumpType, ha, List.lookup]
      · have hbka : (k == a) = false := beq_eq_false_iff_ne.mpr hk
        simp [bumpType, ha, List.lookup, hbka, hbta, ih]

theorem countTypes_aux (l : List ProcResult) (acc : List (String × ℕ)) (t : String) :
    ((l.foldl (fun a d => bumpType a d.documentType) acc).lookup t).getD 0 =
      ((acc.lookup t).getD 0) + (l.filter (fun d => d.documentType == t)).length := by
  induction l generalizing acc with
  | nil => simp
  | cons d rest ih =>
    simp only [List.foldl_cons, List.filter_cons]
    rw [ih]
    by_cases hd : d.documentType = t
    · have hb : (d.documentType == t) = true := by simp [beq_iff_eq, hd]
      rw [bumpType_lookup]
      simp [hd, hb]
      omega
    · have hb : (d.documentType == t) = false := by simp [beq_iff_eq]; exact hd
      rw [bumpType_lookup]
      simp only [hb, if_neg (fun h : t = d.documentType => hd h.symm)]
      simp

/-- C7: `process_batch` over n images of which k fail returns exactly n
records in input order — a result record for each success and an error
record carrying the file name, the error and the timestamp in place of each
failure — one failure never aborts the remaining items, and
`get_statistics` afterwards (document and word totals, average confidence,
per-type histogram) is computed over exactly the successful results, which
are the only records the ledger receives. -/
theorem process_batch_spec (now : String) (items : List (String × PipelineOutcome)) :
    (processBatch now items []).1.length = items.length ∧
    (processBatch now items []).1 =
      items.map (fun it => match it.2 with
        | .ok r => BatchRecord.ok r
        | .error e => BatchRecord.err (pathName it.1) it.1 e now) ∧
    (processBatch now items []).2 = items.filterMap (fun it => it.2.toOption) ∧
    (items.filterMap (fun it => it.2.toOption) = [] →
      getStatistics (processBatch now items []).2 = none) ∧
    (∀ s rest, items.filterMap (fun it => it.2.toOption) = s :: rest →
      getStatistics (processBatch now items []).2 =
        some
          { totalDocuments := (s :: rest).length
            totalWords := ((s :: rest).map (fun d => d.wordCount)).sum
            averageConfidence :=
              round2 (((s :: rest).map (fun d => d.confidence)).sum / (s :: rest).length)
            documentTypes := countTypes (s :: rest) }) ∧
    (∀ t, ((countTypes (items.filterMap (fun it => it.2.toOption))).lookup t).getD 0 =
      ((items.filterMap (fun it => it.2.toOption)).filter
        (fun d => d.documentType == t)).length) := by
  obtain ⟨hrec, hled⟩ := processBatch_spec_aux now items []
  rw [List.nil_append] at hled
  refine ⟨by rw [hrec, List.length_map], hrec, hled, ?_, ?_, ?_⟩
  · intro hnil
    rw [hled, hnil]
    rfl
  · intro s rest hcons
    rw [hled, hcons]
    rfl
  · intro t
    have h := countTypes_aux (items.filterMap (fun it => it.2.toOption)) [] t
    simpa [countTypes] using h

/-- Witness for C7: a batch of three images whose middle item fails to
decode yields two result records around one error record, and the
statistics reflect only the two successes (average confidence 0.7 after
rounding, both documents counted in the histogram). -/
theorem process_batch_spec_witness :
    getStatistics (processBatch "2024-01-01T00:00:00" sampleBatch []).2 =
      some
        { totalDocuments := 2
          totalWords := 9
          averageConfidence := 7/10
          documentTypes := [("invoice", 2)] } := by
  have h := (process_batch_spec "2024-01-01T00:00:00" sampleBatch).2.2.2.2.1
    sampleResultA [sampleResultC] (by rfl)
  rw [h]
  norm_num [sampleResultA, sampleResultC, round2, roundHalfEven, countTypes, bumpType]

end DocScanner
